import Mathlib

/-
  Shallow embedding of src/txn/lock_manager.cc: two lock-manager variants
  (LockManagerA, exclusive-only; LockManagerB, shared/exclusive) over a lock
  table (key to deque of LockRequest), a per-transaction wait counter map
  (Txn to int), and an append-only ready queue.
-/

namespace LockMgr

abbrev Txn := Nat
abbrev Key := Nat

inductive LockMode where
  | UNLOCKED
  | SHARED
  | EXCLUSIVE
deriving DecidableEq

structure LockRequest where
  mode : LockMode
  txn : Txn
deriving DecidableEq

/-- Lock-manager state: lock table (absent key = no deque), wait counters
(absent txn = no map entry; values are C++ ints, so `Int`), ready queue. -/
structure LMState where
  table : Key → Option (List LockRequest)
  waits : Txn → Option Int
  ready : List Txn

def lmInit : LMState :=
  { table := fun _ => none, waits := fun _ => none, ready := [] }

def setW (w : Txn → Option Int) (t : Txn) (v : Int) : Txn → Option Int :=
  fun u => if u = t then some v else w u

def eraseW (w : Txn → Option Int) (t : Txn) : Txn → Option Int :=
  fun u => if u = t then none else w u

def setT (m : Key → Option (List LockRequest)) (k : Key) (q : List LockRequest) :
    Key → Option (List LockRequest) :=
  fun j => if j = k then some q else m j

def eraseT (m : Key → Option (List LockRequest)) (k : Key) :
    Key → Option (List LockRequest) :=
  fun j => if j = k then none else m j

def isExclusive (r : LockRequest) : Bool :=
  match r.mode with
  | LockMode.EXCLUSIVE => true
  | _ => false

/-- LockManagerA::WriteLock: ensure a deque exists for the key, append an
EXCLUSIVE request; if it is the sole entry, set the wait counter to 0 and
grant, else increment the counter (map operator[] default: 0) and wait. -/
def writeLockA (s : LMState) (t : Txn) (k : Key) : LMState × Bool :=
  match s.table k with
  | none =>
      ({ s with table := setT s.table k [⟨LockMode.EXCLUSIVE, t⟩],
                waits := setW s.waits t 0 }, true)
  | some q =>
      let q' := q ++ [⟨LockMode.EXCLUSIVE, t⟩]
      if q'.length = 1 then
        ({ s with table := setT s.table k q', waits := setW s.waits t 0 }, true)
      else
        ({ s with table := setT s.table k q',
                  waits := setW s.waits t ((s.waits t).getD 0 + 1) }, false)

/-- LockManagerA::ReadLock simply calls WriteLock. -/
def readLockA (s : LMState) (t : Txn) (k : Key) : LMState × Bool :=
  writeLockA s t k

/-- The while loop at the end of LockManagerA::Release: pop zombie fronts
(txns absent from the wait-counter map); at the first non-zombie front,
decrement its counter and, when it reaches 0, push it onto the ready queue. -/
def grantLoop (w : Txn → Option Int) (rd : List Txn) :
    List LockRequest → List LockRequest × (Txn → Option Int) × List Txn
  | [] => ([], w, rd)
  | r :: rest =>
      match w r.txn with
      | none => grantLoop w rd rest
      | some c =>
          (r :: rest, setW w r.txn (c - 1),
            if c - 1 = 0 then rd ++ [r.txn] else rd)

/-- Erase the first queue entry whose txn matches (deque scan-and-erase). -/
def removeFirst (t : Txn) : List LockRequest → List LockRequest
  | [] => []
  | r :: rest => if r.txn = t then rest else r :: removeFirst t rest

/-- LockManagerA::Release: missing key or empty deque is a no-op; a txn not at
the front is erased from the wait-counter map (zombie) and removed from the
deque; the front holder is popped, the key erased if the deque empties,
otherwise the grant loop runs on the remainder. -/
def releaseA (s : LMState) (t : Txn) (k : Key) : LMState :=
  match s.table k with
  | none => s
  | some q =>
      match q with
      | [] => s
      | r :: rest =>
          if r.txn = t then
            if rest = [] then
              { s with table := eraseT s.table k }
            else
              let out := grantLoop s.waits s.ready rest
              { table := setT s.table k out.1, waits := out.2.1,
                ready := out.2.2 }
          else
            { s with waits := eraseW s.waits t,
                     table := setT s.table k (removeFirst t (r :: rest)) }

/-- LockManagerA::Status: UNLOCKED when no deque or empty; otherwise
EXCLUSIVE with the front txn as sole owner. -/
def statusA (s : LMState) (k : Key) : LockMode × List Txn :=
  match s.table k with
  | none => (LockMode.UNLOCKED, [])
  | some [] => (LockMode.UNLOCKED, [])
  | some (r :: _) => (LockMode.EXCLUSIVE, [r.txn])

/-- LockManagerB::WriteLock: same logic as LockManagerA::WriteLock. -/
def writeLockB (s : LMState) (t : Txn) (k : Key) : LMState × Bool :=
  match s.table k with
  | none =>
      ({ s with table := setT s.table k [⟨LockMode.EXCLUSIVE, t⟩],
                waits := setW s.waits t 0 }, true)
  | some q =>
      let q' := q ++ [⟨LockMode.EXCLUSIVE, t⟩]
      if q'.length = 1 then
        ({ s with table := setT s.table k q', waits := setW s.waits t 0 }, true)
      else
        ({ s with table := setT s.table k q',
                  waits := setW s.waits t ((s.waits t).getD 0 + 1) }, false)

/-- LockManagerB::ReadLock: append a SHARED request; sole entry grants; else
scan the whole deque for an EXCLUSIVE entry — found means wait (counter
incremented), none means grant (counter set to 0). -/
def readLockB (s : LMState) (t : Txn) (k : Key) : LMState × Bool :=
  match s.table k with
  | none =>
      ({ s with table := setT s.table k [⟨LockMode.SHARED, t⟩],
                waits := setW s.waits t 0 }, true)
  | some q =>
      let q' := q ++ [⟨LockMode.SHARED, t⟩]
      if q'.length = 1 then
        ({ s with table := setT s.table k q', waits := setW s.waits t 0 }, true)
      else if q'.any isExclusive then
        ({ s with table := setT s.table k q',
                  waits := setW s.waits t ((s.waits t).getD 0 + 1) }, false)
      else
        ({ s with table := setT s.table k q', waits := setW s.waits t 0 }, true)

/-- The contiguous run of SHARED owners from the front, up to the first
EXCLUSIVE entry (LockManagerB::Status's collection loop). -/
def sharedRun : List LockRequest → List Txn
  | [] => []
  | r :: rest => if isExclusive r then [] else r.txn :: sharedRun rest

/-- LockManagerB::Status: UNLOCKED when no deque or empty; EXCLUSIVE with the
front txn when the front is exclusive; otherwise SHARED with the contiguous
shared front run as owners. -/
def statusB (s : LMState) (k : Key) : LockMode × List Txn :=
  match s.table k with
  | none => (LockMode.UNLOCKED, [])
  | some [] => (LockMode.UNLOCKED, [])
  | some (r :: rest) =>
      if isExclusive r then (LockMode.EXCLUSIVE, [r.txn])
      else (LockMode.SHARED, sharedRun (r :: rest))

/-- The owner loop of LockManagerB::Release: for each owner found in the
wait-counter map, decrement its counter in place; on reaching 0, push it to
the ready queue and erase its counter entry. -/
def notifyOwners (w : Txn → Option Int) (rd : List Txn) :
    List Txn → (Txn → Option Int) × List Txn
  | [] => (w, rd)
  | o :: rest =>
      match w o with
      | none => notifyOwners w rd rest
      | some c =>
          if c - 1 = 0 then notifyOwners (eraseW w o) (rd ++ [o]) rest
          else notifyOwners (setW w o (c - 1)) rd rest

/-- LockManagerB::Release: `lock_table_[key]` on a missing key inserts a null
deque pointer and then dereferences it — undefined behavior, modelled as
`none`. Otherwise: erase the txn's first queue entry, recompute the owner set
via Status, and run the owner decrement loop. The emptied deque's table entry
is never erased. -/
def releaseB (s : LMState) (t : Txn) (k : Key) : Option LMState :=
  match s.table k with
  | none => none
  | some q =>
      let q' := removeFirst t q
      let s' := { s with table := setT s.table k q' }
      let owners := (statusB s' k).2
      let out := notifyOwners s'.waits s'.ready owners
      some { table := s'.table, waits := out.1, ready := out.2 }

/-! Concrete scenario states used by the evaluation theorems below. -/

/-- Variant B scenario: ReadLock(T1,a). -/
def c4s1 : LMState := (readLockB lmInit 1 0).1

/-- Then ReadLock(T2,a). -/
def c4s2 : LMState := (readLockB c4s1 2 0).1

/-- Then WriteLock(T3,a). -/
def c4s3 : LMState := (writeLockB c4s2 3 0).1

/-- Variant A scenario: WriteLock(T1,a). -/
def c5s1 : LMState := (writeLockA lmInit 1 0).1

/-- Then WriteLock(T2,a). -/
def c5s2 : LMState := (writeLockA c5s1 2 0).1

/-- Variant A cross-key scenario: WriteLock(T1,a); WriteLock(T2,a);
WriteLock(T2,b) — the immediate grant on b overwrites T2's counter. -/
def cOverA : LMState := (writeLockA (writeLockA (writeLockA lmInit 1 0).1 2 0).1 2 1).1

/-- Variant A zombie scenario: WriteLock(T1,a); WriteLock(T2,a);
WriteLock(T1,b); WriteLock(T2,b); Release(T2,b) makes T2 a zombie whose
entry still sits in key a's queue. -/
def cZombieA : LMState :=
  releaseA (writeLockA (writeLockA (writeLockA (writeLockA
    lmInit 1 0).1 2 0).1 1 1).1 2 1).1 2 1

/-- Variant B scenario after Release(T1,a). -/
def c4s4 : LMState := (releaseB c4s3 1 0).getD lmInit

/-- Then after Release(T2,a). -/
def c4s5 : LMState := (releaseB c4s4 2 0).getD lmInit

end LockMgr

namespace LockMgr

theorem isExclusive_iff (r : LockRequest) :
    isExclusive r = true ↔ r.mode = LockMode.EXCLUSIVE := by
  cases r with
  | mk m t => cases m <;> simp [isExclusive]

/-- The grant loop leaves the queue at its maximal zombie-free suffix, and
either appends nothing to the ready queue or appends exactly the new front's
txn, whose counter was 1 (decremented to 0). -/
theorem grantLoop_spec (w : Txn → Option Int) (rd : List Txn) (q : List LockRequest) :
    (grantLoop w rd q).1 = q.dropWhile (fun r => (w r.txn).isNone) ∧
    ((grantLoop w rd q).2.2 = rd ∨
      ∃ t, w t = some 1 ∧ (grantLoop w rd q).2.2 = rd ++ [t] ∧
        ((grantLoop w rd q).1.head?.map LockRequest.txn) = some t) := by
  induction q with
  | nil => simp [grantLoop, List.dropWhile]
  | cons r rest ih =>
    cases h : w r.txn with
    | none =>
      simp only [grantLoop, h, List.dropWhile, Option.isNone_none]
      exact ih
    | some c =>
      by_cases hc : c - 1 = 0
      · have hc1 : c = 1 := by omega
        constructor
        · simp [grantLoop, h, List.dropWhile]
        · right
          refine ⟨r.txn, hc1 ▸ h, ?_, ?_⟩
          · simp [grantLoop, h, hc]
          · simp [grantLoop, h, List.head?]
      · constructor
        · simp [grantLoop, h, List.dropWhile]
        · left; simp [grantLoop, h, hc]

/-- The owner loop never resurrects an absent wait-counter entry. -/
theorem notifyOwners_absent (os : List Txn) :
    ∀ (w : Txn → Option Int) (rd : List Txn) (t : Txn), w t = none →
      (notifyOwners w rd os).1 t = none := by
  induction os with
  | nil =>
    intro w rd t h
    simpa [notifyOwners] using h
  | cons o rest ih =>
    intro w rd t h
    cases ho : w o with
    | none => simpa [notifyOwners, ho] using ih w rd t h
    | some c =>
      by_cases hc : c - 1 = 0
      · have he : eraseW w o t = none := by
          by_cases hto : t = o <;> simp [eraseW, hto, h]
        simpa [notifyOwners, ho, hc] using ih _ _ t he
      · have he : setW w o (c - 1) t = none := by
          by_cases hto : t = o
          · rw [hto] at h; rw [h] at ho; cases ho
          · simp [setW, hto, h]
        simpa [notifyOwners, ho, hc] using ih _ _ t he

/-- The owner loop appends some (duplicate-free) suffix of new grantees: each
is drawn from the owner list, was present in the wait-counter map before, and
is absent from it afterwards. -/
theorem notifyOwners_spec (os : List Txn) :
    ∀ (w : Txn → Option Int) (rd : List Txn),
      ∃ new, (notifyOwners w rd os).2 = rd ++ new ∧ new.Nodup ∧
        (∀ t ∈ new, t ∈ os) ∧ (∀ t ∈ new, w t ≠ none) ∧
        (∀ t ∈ new, (notifyOwners w rd os).1 t = none) := by
  induction os with
  | nil =>
    intro w rd
    exact ⟨[], by simp [notifyOwners], List.nodup_nil, by simp, by simp, by simp⟩
  | cons o rest ih =>
    intro w rd
    cases ho : w o with
    | none =>
      obtain ⟨new, h1, h2, h3, h4, h5⟩ := ih w rd
      refine ⟨new, ?_, h2, ?_, h4, ?_⟩
      · simpa [notifyOwners, ho] using h1
      · exact fun t ht => List.mem_cons_of_mem _ (h3 t ht)
      · intro t ht
        simpa [notifyOwners, ho] using h5 t ht
    | some c =>
      by_cases hc : c - 1 = 0
      · obtain ⟨new, h1, h2, h3, h4, h5⟩ := ih (eraseW w o) (rd ++ [o])
        refine ⟨o :: new, ?_, ?_, ?_, ?_, ?_⟩
        · have : (notifyOwners w rd (o :: rest)).2 =
              (notifyOwners (eraseW w o) (rd ++ [o]) rest).2 := by
            simp [notifyOwners, ho, hc]
          rw [this, h1, List.append_assoc]
          rfl
        · refine List.nodup_cons.mpr ⟨?_, h2⟩
          intro hmem
          have := h4 o hmem
          simp [eraseW] at this
        · intro t ht
          rcases List.mem_cons.mp ht with h | h
          · exact h ▸ List.mem_cons_self o rest
          · exact List.mem_cons_of_mem _ (h3 t h)
        · intro t ht
          rcases List.mem_cons.mp ht with h | h
          · rw [h, ho]; exact fun hx => Option.noConfusion hx
          · intro hwt
            exact h4 t h (by by_cases hto : t = o <;> simp [eraseW, hto, hwt])
        · intro t ht
          rcases List.mem_cons.mp ht with h | h
          · have : (notifyOwners (eraseW w o) (rd ++ [o]) rest).1 t = none := by
              refine notifyOwners_absent rest _ _ t ?_
              simp [eraseW, h]
            simpa [notifyOwners, ho, hc] using this
          · simpa [notifyOwners, ho, hc] using h5 t h
      · obtain ⟨new, h1, h2, h3, h4, h5⟩ := ih (setW w o (c - 1)) rd
        refine ⟨new, ?_, h2, ?_, ?_, ?_⟩
        · simpa [notifyOwners, ho, hc] using h1
        · exact fun t ht => List.mem_cons_of_mem _ (h3 t ht)
        · intro t ht hwt
          refine h4 t ht ?_
          by_cases hto : t = o
          · subst hto; rw [hwt] at ho; cases ho
          · simp [setW, hto, hwt]
        · intro t ht
          simpa [notifyOwners, ho, hc] using h5 t ht

/-- Claim C1: the code violates nonnegativity of wait counters in both
variants. Variant B: after ReadLock(T1,a), ReadLock(T2,a) (both granted,
counters 0), Release(T2,a) decrements already-fully-granted T1's counter to
-1. Variant A: after WriteLock(T2,b) overwrites T2's pending count to 0,
Release(T1,a) decrements T2's counter to -1. -/
theorem C1_negative_counter_eval :
    c4s2.waits 1 = some 0 ∧
    (releaseB c4s2 2 0).map (fun s => s.waits 1) = some (some (-1)) ∧
    cOverA.waits 2 = some 0 ∧
    (releaseA cOverA 1 0).waits 2 = some (-1) ∧
    (releaseA cOverA 1 0).ready = [] := by decide

/-- Claim C2, counterexample: WriteLock(T2,b) after T2 already waits with
counter 1 grants immediately, setting T2's counter from 1 to 0, yet appends
nothing to the Ready Queue — a call that causes a wait counter to reach zero
without appending the transaction. -/
theorem C2_cex :
    (writeLockA (writeLockA lmInit 1 0).1 2 0).1.waits 2 = some 1 ∧
    (writeLockA (writeLockA (writeLockA lmInit 1 0).1 2 0).1 2 1).2 = true ∧
    cOverA.waits 2 = some 0 ∧
    cOverA.ready = [] := by decide

/-- Claim C3: Release on a key with no lock-table entry. Variant A is a
no-op, but Variant B's `lock_table_[key]` inserts a null deque pointer and
dereferences it — undefined behavior, modelled as `none`. -/
theorem C3_release_missing_key :
    releaseB lmInit 1 0 = none ∧ releaseA lmInit 1 0 = lmInit :=
  ⟨rfl, rfl⟩

/-- Claim C4: Variant B scenario — ReadLock(T1,a) true; ReadLock(T2,a) true;
WriteLock(T3,a) false; after Release(T1,a) Status(a) is SHARED with owners
[T2] and the Ready Queue is still empty; after Release(T2,a) T3 is appended
and Status(a) is EXCLUSIVE with owners [T3]. -/
theorem C4_scenario_B :
    (readLockB lmInit 1 0).2 = true ∧
    (readLockB c4s1 2 0).2 = true ∧
    (writeLockB c4s2 3 0).2 = false ∧
    (releaseB c4s3 1 0).map (fun s => (statusB s 0, s.ready)) =
      some ((LockMode.SHARED, [2]), []) ∧
    ((releaseB c4s3 1 0).bind (fun s4 => releaseB s4 2 0)).map
      (fun s => (statusB s 0, s.ready)) =
      some ((LockMode.EXCLUSIVE, [3]), [3]) := by decide

/-- Claim C5: Variant A scenario — WriteLock(T1,a) true; WriteLock(T2,a)
false; Release(T1,a) appends T2 to the Ready Queue; Status(a) is then
EXCLUSIVE with owners [T2]. -/
theorem C5_scenario_A :
    (writeLockA lmInit 1 0).2 = true ∧
    (writeLockA c5s1 2 0).2 = false ∧
    (releaseA c5s2 1 0).ready = [2] ∧
    statusA (releaseA c5s2 1 0) 0 = (LockMode.EXCLUSIVE, [2]) := by decide

/-- Claim C9, counterexample: in Variant B, Release of the sole reader leaves
key a mapped to an empty queue; in Variant A, the zombie-skip loop empties
key a's queue while its table entry survives. -/
theorem C9_cex :
    (releaseB c4s1 1 0).map (fun s => s.table 0) = some (some []) ∧
    (releaseA cZombieA 1 0).table 0 = some [] := by decide

/-- Completeness of the grant loop: when the first non-zombie front's
counter is exactly 1, its decrement reaches 0 and it is pushed (once). -/
theorem grantLoop_complete (w : Txn → Option Int) (rd : List Txn) :
    ∀ (q : List LockRequest) (r : LockRequest) (rest' : List LockRequest),
      q.dropWhile (fun x => (w x.txn).isNone) = r :: rest' →
      w r.txn = some 1 → (grantLoop w rd q).2.2 = rd ++ [r.txn] := by
  intro q
  induction q with
  | nil =>
    intro r rest' hd
    simp [List.dropWhile] at hd
  | cons x xs ih =>
    intro r rest' hd hw
    cases h : w x.txn with
    | none =>
      simp only [List.dropWhile, h, Option.isNone_none] at hd
      simpa [grantLoop, h] using ih r rest' hd hw
    | some c =>
      simp only [List.dropWhile, h, Option.isNone_some] at hd
      injection hd with h1 h2
      subst h1
      have hc : c = 1 := by
        rw [h] at hw
        exact Option.some.inj hw
      subst hc
      simp [grantLoop, h]

/-- A txn absent from the wait-counter map is never pushed by the owner
loop: its ready-queue count is unchanged. -/
theorem notifyOwners_absent_count (os : List Txn) :
    ∀ (w : Txn → Option Int) (rd : List Txn) (t : Txn), w t = none →
      (notifyOwners w rd os).2.count t = rd.count t := by
  induction os with
  | nil =>
    intro w rd t h
    simp [notifyOwners]
  | cons o rest ih =>
    intro w rd t h
    cases ho : w o with
    | none => simpa [notifyOwners, ho] using ih w rd t h
    | some c =>
      have hto : ¬ t = o := by
        intro he
        rw [← he, h] at ho
        cases ho
      by_cases hc : c - 1 = 0
      · have he : eraseW w o t = none := by simp [eraseW, hto, h]
        have hco : (rd ++ [o]).count t = rd.count t := by
          simp [List.count_append, List.count_cons, List.count_nil, hto]
        have h2 := ih (eraseW w o) (rd ++ [o]) t he
        rw [hco] at h2
        simpa [notifyOwners, ho, hc] using h2
      · have he : setW w o (c - 1) t = none := by simp [setW, hto, h]
        simpa [notifyOwners, ho, hc] using ih _ rd t he

/-- Completeness and exactness of the owner loop: an owner whose counter is
exactly 1 is decremented to 0 and pushed onto the ready queue exactly once
(it is erased at the push, so later occurrences are skipped). -/
theorem notifyOwners_count_one (os : List Txn) :
    ∀ (w : Txn → Option Int) (rd : List Txn) (t : Txn), t ∈ os →
      w t = some 1 → (notifyOwners w rd os).2.count t = rd.count t + 1 := by
  induction os with
  | nil =>
    intro w rd t h
    cases h
  | cons o rest ih =>
    intro w rd t hmem hw
    by_cases hot : o = t
    · subst hot
      have habs : eraseW w o o = none := by simp [eraseW]
      have hcount := notifyOwners_absent_count rest (eraseW w o) (rd ++ [o]) o habs
      have hco : (rd ++ [o]).count o = rd.count o + 1 := by
        simp [List.count_append, List.count_cons, List.count_nil]
      rw [hco] at hcount
      simpa [notifyOwners, hw] using hcount
    · have hmem' : t ∈ rest := by
        rcases List.mem_cons.mp hmem with h | h
        · exact absurd h.symm hot
        · exact h
      cases ho : w o with
      | none => simpa [notifyOwners, ho] using ih w rd t hmem' hw
      | some c =>
        have hto : ¬ t = o := fun he => hot he.symm
        by_cases hc : c - 1 = 0
        · have hw' : eraseW w o t = some 1 := by simp [eraseW, hto, hw]
          have hco : (rd ++ [o]).count t = rd.count t := by
            simp [List.count_append, List.count_cons, List.count_nil, hto]
          have h2 := ih (eraseW w o) (rd ++ [o]) t hmem' hw'
          rw [hco] at h2
          simpa [notifyOwners, ho, hc] using h2
        · have hw' : setW w o (c - 1) t = some 1 := by simp [setW, hto, hw]
          simpa [notifyOwners, ho, hc] using ih _ rd t hmem' hw'

/-- Reduction of LockManagerB::Release when the key's deque exists. -/
theorem releaseB_eq (s : LMState) (t k : Nat) (q : List LockRequest)
    (h : s.table k = some q) :
    releaseB s t k = some
      { table := setT s.table k (removeFirst t q),
        waits := (notifyOwners s.waits s.ready
          ((statusB { s with table := setT s.table k (removeFirst t q) } k).2)).1,
        ready := (notifyOwners s.waits s.ready
          ((statusB { s with table := setT s.table k (removeFirst t q) } k).2)).2 } := by
  simp [releaseB, h]

/-- Claim C6: in Variant A, releasing a txn that is not the front of the
key's non-empty queue removes its (first) queue entry, erases its wait
counter, leaves every other queue, every other txn's counter, and the ready
queue unchanged; and a later release by the front holder drops the zombie
prefix of the remaining queue, appending to the ready queue only a txn whose
counter entry exists (value 1, reaching 0) — never a zombie. -/
theorem C6_zombie_release :
    (∀ (s : LMState) (t k : Nat) (r : LockRequest) (rest : List LockRequest),
      s.table k = some (r :: rest) → r.txn ≠ t →
        (releaseA s t k).table k = some (removeFirst t (r :: rest)) ∧
        (∀ k', k' ≠ k → (releaseA s t k).table k' = s.table k') ∧
        (releaseA s t k).waits t = none ∧
        (∀ t', t' ≠ t → (releaseA s t k).waits t' = s.waits t') ∧
        (releaseA s t k).ready = s.ready) ∧
    (∀ (s : LMState) (t k : Nat) (r : LockRequest) (rest : List LockRequest),
      s.table k = some (r :: rest) → r.txn = t → rest ≠ [] →
        (releaseA s t k).table k =
          some (rest.dropWhile (fun x => (s.waits x.txn).isNone)) ∧
        ((releaseA s t k).ready = s.ready ∨
          ∃ t', s.waits t' = some 1 ∧
            (releaseA s t k).ready = s.ready ++ [t'])) := by
  constructor
  · intro s t k r rest h hne
    have hred : releaseA s t k =
        { s with waits := eraseW s.waits t,
                 table := setT s.table k (removeFirst t (r :: rest)) } := by
      simp [releaseA, h, hne]
    refine ⟨?_, ?_, ?_, ?_, ?_⟩
    · rw [hred]; simp [setT]
    · intro k' hk'; rw [hred]; simp [setT, hk']
    · rw [hred]; simp [eraseW]
    · intro t' ht'; rw [hred]; simp [eraseW, ht']
    · rw [hred]
  · intro s t k r rest h heq hrest
    have hred : releaseA s t k =
        { table := setT s.table k (grantLoop s.waits s.ready rest).1,
          waits := (grantLoop s.waits s.ready rest).2.1,
          ready := (grantLoop s.waits s.ready rest).2.2 } := by
      simp [releaseA, h, heq, hrest]
    obtain ⟨hq, hrd⟩ := grantLoop_spec s.waits s.ready rest
    constructor
    · rw [hred]; simp [setT, hq]
    · rw [hred]
      rcases hrd with hrd | ⟨t', hw, hrd, _⟩
      · exact Or.inl hrd
      · exact Or.inr ⟨t', hw, hrd⟩

/-- Witness for C6 at concrete states: T2's cancelled wait on key a (with T1
the front holder) erases T2's counter and touches nothing else; and
releasing T1 on key a when a zombie T2 is next drops the zombie prefix. -/
theorem C6_zombie_release_witness :
    ((releaseA c5s2 2 0).table 0 =
        some (removeFirst 2 [⟨LockMode.EXCLUSIVE, 1⟩, ⟨LockMode.EXCLUSIVE, 2⟩]) ∧
      (releaseA c5s2 2 0).table 5 = c5s2.table 5 ∧
      (releaseA c5s2 2 0).waits 2 = none ∧
      (releaseA c5s2 2 0).waits 1 = c5s2.waits 1 ∧
      (releaseA c5s2 2 0).ready = c5s2.ready) ∧
    (releaseA cZombieA 1 0).table 0 =
      some (List.dropWhile (fun x => (cZombieA.waits x.txn).isNone)
        [⟨LockMode.EXCLUSIVE, 2⟩]) := by
  have h1 := C6_zombie_release.1 c5s2 2 0 ⟨LockMode.EXCLUSIVE, 1⟩
    [⟨LockMode.EXCLUSIVE, 2⟩] (by decide) (by decide)
  have h2 := C6_zombie_release.2 cZombieA 1 0 ⟨LockMode.EXCLUSIVE, 1⟩
    [⟨LockMode.EXCLUSIVE, 2⟩] (by decide) (by decide) (by decide)
  exact ⟨⟨h1.1, h1.2.1 5 (by decide), h1.2.2.1, h1.2.2.2.1 1 (by decide),
    h1.2.2.2.2⟩, h2.1⟩

/-- Claim C7: Variant B's ReadLock appends a SHARED request to the key's
queue and grants (true, counter set to 0) exactly when the post-append queue
contains no EXCLUSIVE request; otherwise it increments the txn's counter and
returns false. -/
theorem C7_readLockB_scan :
    ∀ (s : LMState) (t k : Nat),
      (readLockB s t k).1.table k =
        some ((s.table k).getD [] ++ [⟨LockMode.SHARED, t⟩]) ∧
      ((readLockB s t k).2 = true ↔
        ∀ r ∈ (s.table k).getD [] ++ [⟨LockMode.SHARED, t⟩],
          r.mode ≠ LockMode.EXCLUSIVE) ∧
      ((readLockB s t k).2 = true → (readLockB s t k).1.waits t = some 0) ∧
      ((readLockB s t k).2 = false →
        (readLockB s t k).1.waits t = some ((s.waits t).getD 0 + 1)) := by
  intro s t k
  cases h : s.table k with
  | none =>
    refine ⟨?_, ?_, ?_, ?_⟩ <;> simp [readLockB, h, setT, setW, isExclusive]
  | some q =>
    by_cases hlen : (q ++ [(⟨LockMode.SHARED, t⟩ : LockRequest)]).length = 1
    · have hq : q = [] := by
        cases q with
        | nil => rfl
        | cons a b => simp at hlen
      subst hq
      refine ⟨?_, ?_, ?_, ?_⟩ <;> simp [readLockB, h, setT, setW, isExclusive]
    · have hqne : q ≠ [] := by
        intro hq
        subst hq
        simp at hlen
      by_cases hany : (q ++ [(⟨LockMode.SHARED, t⟩ : LockRequest)]).any isExclusive
      · have hex : ¬ ∀ r ∈ q ++ [(⟨LockMode.SHARED, t⟩ : LockRequest)],
            r.mode ≠ LockMode.EXCLUSIVE := by
          intro hall
          obtain ⟨r, hr, hrex⟩ := List.any_eq_true.mp hany
          exact hall r hr (isExclusive_iff r |>.mp hrex)
        have hred : readLockB s t k =
            ({ s with table := setT s.table k (q ++ [⟨LockMode.SHARED, t⟩]),
                      waits := setW s.waits t ((s.waits t).getD 0 + 1) },
              false) := by
          simp [readLockB, h, hqne, hany]
        refine ⟨?_, ?_, ?_, ?_⟩
        · rw [hred]; simp [setT]
        · rw [hred]; simpa using hex
        · rw [hred]; simp
        · rw [hred]; simp [setW]
      · have hall : ∀ r ∈ q ++ [(⟨LockMode.SHARED, t⟩ : LockRequest)],
            r.mode ≠ LockMode.EXCLUSIVE := by
          intro r hr hrex
          have hfalse := List.any_eq_false.mp (Bool.eq_false_iff.mpr hany) r hr
          exact hfalse ((isExclusive_iff r).mpr hrex)
        have hred : readLockB s t k =
            ({ s with table := setT s.table k (q ++ [⟨LockMode.SHARED, t⟩]),
                      waits := setW s.waits t 0 }, true) := by
          simp [readLockB, h, hqne, hany]
        refine ⟨?_, ?_, ?_, ?_⟩
        · rw [hred]; simp [setT]
        · rw [hred]; simpa using hall
        · rw [hred]; simp [setW]
        · rw [hred]; simp

/-- Witness for C7 at concrete states: on the queue [SHARED T1, SHARED T2]
a ReadLock by T3 is granted with counter 0, and once T3's EXCLUSIVE request
is queued a ReadLock by T4 is refused with counter 1. -/
theorem C7_readLockB_scan_witness :
    ((readLockB c4s2 3 0).2 = true →
      (readLockB c4s2 3 0).1.waits 3 = some 0) ∧
    (readLockB c4s2 3 0).2 = true ∧
    ((readLockB c4s3 4 0).2 = false →
      (readLockB c4s3 4 0).1.waits 4 = some ((c4s3.waits 4).getD 0 + 1)) ∧
    (readLockB c4s3 4 0).2 = false ∧
    ((readLockB c4s3 4 0).2 = true ↔
      ∀ r ∈ (c4s3.table 0).getD [] ++ [⟨LockMode.SHARED, 4⟩],
        r.mode ≠ LockMode.EXCLUSIVE) := by
  refine ⟨(C7_readLockB_scan c4s2 3 0).2.2.1, by decide,
    (C7_readLockB_scan c4s3 4 0).2.2.2, by decide,
    (C7_readLockB_scan c4s3 4 0).2.1⟩

/-- Claim C8: in both variants WriteLock grants immediately exactly when the
key had no pending request, and the appended EXCLUSIVE request is then the
sole entry of the queue; release-time grants go only to front positions: any
txn newly appended to the ready queue by Variant A's Release is the head of
the key's remaining queue, and by Variant B's Release is in the recomputed
owner set (the front holder run). -/
theorem C8_writer_fifo :
    (∀ (s : LMState) (t k : Nat),
      ((writeLockA s t k).2 = true ↔ (s.table k).getD [] = []) ∧
      ((writeLockA s t k).2 = true →
        (writeLockA s t k).1.table k = some [⟨LockMode.EXCLUSIVE, t⟩])) ∧
    (∀ (s : LMState) (t k : Nat),
      ((writeLockB s t k).2 = true ↔ (s.table k).getD [] = []) ∧
      ((writeLockB s t k).2 = true →
        (writeLockB s t k).1.table k = some [⟨LockMode.EXCLUSIVE, t⟩])) ∧
    (∀ (s : LMState) (t k t' : Nat), t' ∈ (releaseA s t k).ready →
      t' ∈ s.ready ∨
        (((releaseA s t k).table k).bind List.head?).map LockRequest.txn =
          some t') ∧
    (∀ (s : LMState) (t k : Nat) (s' : LMState), releaseB s t k = some s' →
      ∀ t' ∈ s'.ready, t' ∈ s.ready ∨ t' ∈ (statusB s' k).2) := by
  refine ⟨?_, ?_, ?_, ?_⟩
  · intro s t k
    constructor
    · cases h : s.table k with
      | none => simp [writeLockA, h]
      | some q =>
        by_cases hq : q = []
        · subst hq; simp [writeLockA, h]
        · simp [writeLockA, h, hq]
    · intro hg
      cases h : s.table k with
      | none => simp [writeLockA, h, setT]
      | some q =>
        by_cases hq : q = []
        · subst hq; simp [writeLockA, h, setT]
        · exfalso; simp [writeLockA, h, hq] at hg
  · intro s t k
    constructor
    · cases h : s.table k with
      | none => simp [writeLockB, h]
      | some q =>
        by_cases hq : q = []
        · subst hq; simp [writeLockB, h]
        · simp [writeLockB, h, hq]
    · intro hg
      cases h : s.table k with
      | none => simp [writeLockB, h, setT]
      | some q =>
        by_cases hq : q = []
        · subst hq; simp [writeLockB, h, setT]
        · exfalso; simp [writeLockB, h, hq] at hg
  · intro s t k t' hmem
    cases h : s.table k with
    | none =>
      left
      simpa [releaseA, h] using hmem
    | some q =>
      cases q with
      | nil =>
        left
        simpa [releaseA, h] using hmem
      | cons r rest =>
        by_cases hr : r.txn = t
        · by_cases hrest : rest = []
          · subst hrest
            left
            simpa [releaseA, h, hr] using hmem
          · have hred : releaseA s t k =
                { table := setT s.table k (grantLoop s.waits s.ready rest).1,
                  waits := (grantLoop s.waits s.ready rest).2.1,
                  ready := (grantLoop s.waits s.ready rest).2.2 } := by
              simp [releaseA, h, hr, hrest]
            rw [hred] at hmem ⊢
            obtain ⟨hq, hrd⟩ := grantLoop_spec s.waits s.ready rest
            rcases hrd with hrd | ⟨t0, hw, hrd, hhead⟩
            · left
              simpa [hrd] using hmem
            · rw [hrd] at hmem
              rcases List.mem_append.mp hmem with hm | hm
              · exact Or.inl hm
              · right
                have ht0 : t' = t0 := by simpa using hm
                subst ht0
                simpa [setT] using hhead
        · left
          simpa [releaseA, h, hr] using hmem
  · intro s t k s' hrel t' hmem
    cases h : s.table k with
    | none => simp [releaseB, h] at hrel
    | some q =>
      rw [releaseB_eq s t k q h] at hrel
      have hs : s' = _ := (Option.some.inj hrel).symm
      subst hs
      obtain ⟨new, h1, _, h3, _, _⟩ :=
        notifyOwners_spec
          ((statusB { s with table := setT s.table k (removeFirst t q) } k).2)
          s.waits s.ready
      have hmem' : t' ∈ (notifyOwners s.waits s.ready
          ((statusB { s with table := setT s.table k (removeFirst t q) } k).2)).2 :=
        hmem
      rw [h1] at hmem'
      rcases List.mem_append.mp hmem' with hm | hm
      · exact Or.inl hm
      · exact Or.inr (h3 t' hm)

/-- Witness for C8 at concrete states: WriteLock on an empty manager grants
with a sole-entry queue; Variant A's Release of T1 appends T2, the new queue
head; Variant B's Release of T2 appends T3, a member of the recomputed owner
set. -/
theorem C8_writer_fifo_witness :
    ((writeLockA lmInit 1 0).2 = true ↔ (lmInit.table 0).getD [] = []) ∧
    (writeLockA lmInit 1 0).1.table 0 = some [⟨LockMode.EXCLUSIVE, 1⟩] ∧
    ((writeLockB lmInit 1 0).2 = true ↔ (lmInit.table 0).getD [] = []) ∧
    (2 ∈ c5s2.ready ∨
      (((releaseA c5s2 1 0).table 0).bind List.head?).map LockRequest.txn =
        some 2) ∧
    (3 ∈ c4s4.ready ∨ 3 ∈ (statusB c4s5 0).2) := by
  refine ⟨(C8_writer_fifo.1 lmInit 1 0).1,
    (C8_writer_fifo.1 lmInit 1 0).2 (by decide),
    (C8_writer_fifo.2.1 lmInit 1 0).1,
    C8_writer_fifo.2.2.1 c5s2 1 0 2 (by decide),
    C8_writer_fifo.2.2.2 c4s4 2 0 c4s5 rfl 3 (by decide)⟩

/-- Claim C2, amended: WriteLock and ReadLock never append to the Ready
Queue even when they set a wait counter to zero; every Release that
decrements a wait counter to exactly zero appends that transaction exactly
once: a Variant A Release appends a txn exactly when it decrements that
txn's counter (the first non-zombie behind the released front holder) from
1 to 0, and appends nothing else; a Variant B Release appends exactly once
every recomputed owner whose counter it decrements from 1 to 0, erasing its
counter entry (so that entry can never be appended for again), and appends
only txns whose entry existed and is erased. -/
theorem C2_amended :
    (∀ (s : LMState) (t k : Nat),
      (writeLockA s t k).1.ready = s.ready ∧
      (readLockA s t k).1.ready = s.ready ∧
      (writeLockB s t k).1.ready = s.ready ∧
      (readLockB s t k).1.ready = s.ready) ∧
    (∀ (s : LMState) (t k t' : Nat), t' ∈ (releaseA s t k).ready →
      t' ∈ s.ready ∨
        (s.waits t' = some 1 ∧ (releaseA s t k).ready = s.ready ++ [t'])) ∧
    (∀ (s : LMState) (t k : Nat) (r r' : LockRequest)
        (rest rest' : List LockRequest),
      s.table k = some (r :: rest) → r.txn = t →
      rest.dropWhile (fun x => (s.waits x.txn).isNone) = r' :: rest' →
      s.waits r'.txn = some 1 →
      (releaseA s t k).ready = s.ready ++ [r'.txn]) ∧
    (∀ (s : LMState) (t k : Nat) (s' : LMState), releaseB s t k = some s' →
      (∀ t', t' ∈ s'.ready → t' ∈ s.ready ∨
        (s.waits t' ≠ none ∧ s'.waits t' = none)) ∧
      (∀ t', s'.ready.count t' ≤ s.ready.count t' + 1) ∧
      (∀ t', t' ∈ (statusB s' k).2 → s.waits t' = some 1 →
        s'.ready.count t' = s.ready.count t' + 1)) := by
  refine ⟨?_, ?_, ?_, ?_⟩
  · intro s t k
    refine ⟨?_, ?_, ?_, ?_⟩
    · cases h : s.table k with
      | none => simp [writeLockA, h]
      | some q =>
        simp only [writeLockA, h]
        split <;> rfl
    · cases h : s.table k with
      | none => simp [readLockA, writeLockA, h]
      | some q =>
        simp only [readLockA, writeLockA, h]
        split <;> rfl
    · cases h : s.table k with
      | none => simp [writeLockB, h]
      | some q =>
        simp only [writeLockB, h]
        split <;> rfl
    · cases h : s.table k with
      | none => simp [readLockB, h]
      | some q =>
        simp only [readLockB, h]
        split
        · rfl
        · split <;> rfl
  · intro s t k t' hmem
    cases h : s.table k with
    | none =>
      left
      simpa [releaseA, h] using hmem
    | some q =>
      cases q with
      | nil =>
        left
        simpa [releaseA, h] using hmem
      | cons r rest =>
        by_cases hr : r.txn = t
        · by_cases hrest : rest = []
          · subst hrest
            left
            simpa [releaseA, h, hr] using hmem
          · have hred : releaseA s t k =
                { table := setT s.table k (grantLoop s.waits s.ready rest).1,
                  waits := (grantLoop s.waits s.ready rest).2.1,
                  ready := (grantLoop s.waits s.ready rest).2.2 } := by
              simp [releaseA, h, hr, hrest]
            rw [hred] at hmem ⊢
            obtain ⟨_, hrd⟩ := grantLoop_spec s.waits s.ready rest
            rcases hrd with hrd | ⟨t0, hw, hrd, _⟩
            · left
              simpa [hrd] using hmem
            · rw [hrd] at hmem ⊢
              rcases List.mem_append.mp hmem with hm | hm
              · exact Or.inl hm
              · have ht0 : t' = t0 := by simpa using hm
                subst ht0
                exact Or.inr ⟨hw, rfl⟩
        · left
          simpa [releaseA, h, hr] using hmem
  · intro s t k r r' rest rest' h heq hd hw1
    have hrest : rest ≠ [] := by
      intro he
      subst he
      simp [List.dropWhile] at hd
    have hred : releaseA s t k =
        { table := setT s.table k (grantLoop s.waits s.ready rest).1,
          waits := (grantLoop s.waits s.ready rest).2.1,
          ready := (grantLoop s.waits s.ready rest).2.2 } := by
      simp [releaseA, h, heq, hrest]
    rw [hred]
    exact grantLoop_complete s.waits s.ready rest r' rest' hd hw1
  · intro s t k s' hrel
    cases h : s.table k with
    | none => simp [releaseB, h] at hrel
    | some q =>
      rw [releaseB_eq s t k q h] at hrel
      have hs : s' = _ := (Option.some.inj hrel).symm
      subst hs
      obtain ⟨new, h1, h2, _, h4, h5⟩ :=
        notifyOwners_spec
          ((statusB { s with table := setT s.table k (removeFirst t q) } k).2)
          s.waits s.ready
      refine ⟨?_, ?_, ?_⟩
      · intro t' hmem
        have hmem' : t' ∈ (notifyOwners s.waits s.ready
            ((statusB { s with table := setT s.table k (removeFirst t q) } k).2)).2 :=
          hmem
        rw [h1] at hmem'
        rcases List.mem_append.mp hmem' with hm | hm
        · exact Or.inl hm
        · exact Or.inr ⟨h4 t' hm, h5 t' hm⟩
      · intro t'
        have hone : new.count t' ≤ 1 := List.nodup_iff_count_le_one.mp h2 t'
        have hbound : ((notifyOwners s.waits s.ready
            ((statusB { s with table := setT s.table k (removeFirst t q) } k).2)).2).count t' ≤
            s.ready.count t' + 1 := by
          rw [h1]
          simp only [List.count_append]
          omega
        exact hbound
      · intro t' hmem hw1
        have hexact : ((notifyOwners s.waits s.ready
            ((statusB { s with table := setT s.table k (removeFirst t q) } k).2)).2).count t' =
            s.ready.count t' + 1 :=
          notifyOwners_count_one _ s.waits s.ready t' hmem hw1
        exact hexact
  
/-- Witness for C2 at concrete states: the acquisition calls leave the ready
queue alone; Variant A's Release of T1 appends T2, whose counter was 1, and
does append it (completeness); in Variant B, T3 is appended by Release(T2,a)
with its counter entry erased, the appended count is bounded, and T3 —
a recomputed owner with counter 1 — is appended exactly once. -/
theorem C2_amended_witness :
    ((writeLockA lmInit 1 0).1.ready = lmInit.ready ∧
      (readLockA lmInit 1 0).1.ready = lmInit.ready ∧
      (writeLockB lmInit 1 0).1.ready = lmInit.ready ∧
      (readLockB lmInit 1 0).1.ready = lmInit.ready) ∧
    (2 ∈ c5s2.ready ∨
      (c5s2.waits 2 = some 1 ∧ (releaseA c5s2 1 0).ready = c5s2.ready ++ [2])) ∧
    (releaseA c5s2 1 0).ready = c5s2.ready ++ [2] ∧
    (3 ∈ c4s4.ready ∨ (c4s4.waits 3 ≠ none ∧ c4s5.waits 3 = none)) ∧
    c4s5.ready.count 3 ≤ c4s4.ready.count 3 + 1 ∧
    c4s5.ready.count 3 = c4s4.ready.count 3 + 1 := by
  refine ⟨C2_amended.1 lmInit 1 0,
    C2_amended.2.1 c5s2 1 0 2 (by decide),
    C2_amended.2.2.1 c5s2 1 0 ⟨LockMode.EXCLUSIVE, 1⟩ ⟨LockMode.EXCLUSIVE, 2⟩
      [⟨LockMode.EXCLUSIVE, 2⟩] [] (by decide) (by decide) (by decide) (by decide),
    (C2_amended.2.2.2 c4s4 2 0 c4s5 rfl).1 3 (by decide),
    (C2_amended.2.2.2 c4s4 2 0 c4s5 rfl).2.1 3,
    (C2_amended.2.2.2 c4s4 2 0 c4s5 rfl).2.2 3 (by decide) (by decide)⟩

/-- Claim C9, amended: in both variants WriteLock and ReadLock preserve the
invariant that no key maps to an empty queue, and Variant A's Release of a
sole front holder deletes the key's table entry; other Release paths
(Variant A's zombie skip, Variant B's removal of the last entry) can leave a
key mapped to an empty queue. -/
theorem C9_amended :
    (∀ (s : LMState) (t k : Nat), (∀ k', s.table k' ≠ some []) →
      ∀ k', (writeLockA s t k).1.table k' ≠ some []) ∧
    (∀ (s : LMState) (t k : Nat), (∀ k', s.table k' ≠ some []) →
      ∀ k', (readLockA s t k).1.table k' ≠ some []) ∧
    (∀ (s : LMState) (t k : Nat), (∀ k', s.table k' ≠ some []) →
      ∀ k', (writeLockB s t k).1.table k' ≠ some []) ∧
    (∀ (s : LMState) (t k : Nat), (∀ k', s.table k' ≠ some []) →
      ∀ k', (readLockB s t k).1.table k' ≠ some []) ∧
    (∀ (s : LMState) (t k : Nat) (r : LockRequest),
      s.table k = some [r] → r.txn = t → (releaseA s t k).table k = none) := by
  have hsetT : ∀ (m : Key → Option (List LockRequest)) (k : Nat)
      (q : List LockRequest), q ≠ [] → (∀ k', m k' ≠ some []) →
      ∀ k', setT m k q k' ≠ some [] := by
    intro m k q hq hm k'
    by_cases hk : k' = k
    · simpa [setT, hk] using hq
    · simpa [setT, hk] using hm k'
  refine ⟨?_, ?_, ?_, ?_, ?_⟩
  · intro s t k hinv k'
    cases h : s.table k with
    | none =>
      simpa [writeLockA, h] using
        hsetT s.table k [⟨LockMode.EXCLUSIVE, t⟩] (by simp) hinv k'
    | some q =>
      by_cases hq : q = []
      · subst hq
        simpa [writeLockA, h] using
          hsetT s.table k [⟨LockMode.EXCLUSIVE, t⟩] (by simp) hinv k'
      · simpa [writeLockA, h, hq] using
          hsetT s.table k (q ++ [⟨LockMode.EXCLUSIVE, t⟩]) (by simp) hinv k'
  · intro s t k hinv k'
    cases h : s.table k with
    | none =>
      simpa [readLockA, writeLockA, h] using
        hsetT s.table k [⟨LockMode.EXCLUSIVE, t⟩] (by simp) hinv k'
    | some q =>
      by_cases hq : q = []
      · subst hq
        simpa [readLockA, writeLockA, h] using
          hsetT s.table k [⟨LockMode.EXCLUSIVE, t⟩] (by simp) hinv k'
      · simpa [readLockA, writeLockA, h, hq] using
          hsetT s.table k (q ++ [⟨LockMode.EXCLUSIVE, t⟩]) (by simp) hinv k'
  · intro s t k hinv k'
    cases h : s.table k with
    | none =>
      simpa [writeLockB, h] using
        hsetT s.table k [⟨LockMode.EXCLUSIVE, t⟩] (by simp) hinv k'
    | some q =>
      by_cases hq : q = []
      · subst hq
        simpa [writeLockB, h] using
          hsetT s.table k [⟨LockMode.EXCLUSIVE, t⟩] (by simp) hinv k'
      · simpa [writeLockB, h, hq] using
          hsetT s.table k (q ++ [⟨LockMode.EXCLUSIVE, t⟩]) (by simp) hinv k'
  · intro s t k hinv k'
    cases h : s.table k with
    | none =>
      simpa [readLockB, h] using
        hsetT s.table k [⟨LockMode.SHARED, t⟩] (by simp) hinv k'
    | some q =>
      by_cases hq : q = []
      · subst hq
        simpa [readLockB, h] using
          hsetT s.table k [⟨LockMode.SHARED, t⟩] (by simp) hinv k'
      · by_cases hany : (q ++ [(⟨LockMode.SHARED, t⟩ : LockRequest)]).any isExclusive
        · simpa [readLockB, h, hq, hany] using
            hsetT s.table k (q ++ [⟨LockMode.SHARED, t⟩]) (by simp) hinv k'
        · simpa [readLockB, h, hq, hany] using
            hsetT s.table k (q ++ [⟨LockMode.SHARED, t⟩]) (by simp) hinv k'
  · intro s t k r h heq
    have hred : releaseA s t k = { s with table := eraseT s.table k } := by
      simp [releaseA, h, heq]
    rw [hred]
    simp [eraseT]

/-- Witness for C9 at concrete states: acquisitions starting from the empty
manager leave no key mapped to an empty queue, and releasing the sole holder
T1 deletes key a's table entry. -/
theorem C9_amended_witness :
    (writeLockA lmInit 1 0).1.table 0 ≠ some [] ∧
    (readLockA lmInit 1 0).1.table 0 ≠ some [] ∧
    (writeLockB lmInit 1 0).1.table 0 ≠ some [] ∧
    (readLockB lmInit 1 0).1.table 0 ≠ some [] ∧
    (releaseA c5s1 1 0).table 0 = none := by
  have hinv : ∀ k', lmInit.table k' ≠ some [] := by
    intro k'
    simp [lmInit]
  refine ⟨C9_amended.1 lmInit 1 0 hinv 0,
    C9_amended.2.1 lmInit 1 0 hinv 0,
    C9_amended.2.2.1 lmInit 1 0 hinv 0,
    C9_amended.2.2.2.1 lmInit 1 0 hinv 0,
    C9_amended.2.2.2.2 c5s1 1 0 ⟨LockMode.EXCLUSIVE, 1⟩ (by decide) (by decide)⟩

/-- Claim C10: in both variants, an immediately granted WriteLock or
ReadLock assigns the transaction's wait-counter entry the value 0
unconditionally, whatever its previous value. -/
theorem C10_grant_sets_zero :
    ∀ (s : LMState) (t k : Nat),
      ((writeLockA s t k).2 = true → (writeLockA s t k).1.waits t = some 0) ∧
      ((readLockA s t k).2 = true → (readLockA s t k).1.waits t = some 0) ∧
      ((writeLockB s t k).2 = true → (writeLockB s t k).1.waits t = some 0) ∧
      ((readLockB s t k).2 = true → (readLockB s t k).1.waits t = some 0) := by
  intro s t k
  refine ⟨?_, ?_, ?_, ?_⟩
  · intro hg
    cases h : s.table k with
    | none => simp [writeLockA, h, setW]
    | some q =>
      by_cases hq : q = []
      · subst hq; simp [writeLockA, h, setW]
      · exfalso; simp [writeLockA, h, hq] at hg
  · intro hg
    cases h : s.table k with
    | none => simp [readLockA, writeLockA, h, setW]
    | some q =>
      by_cases hq : q = []
      · subst hq; simp [readLockA, writeLockA, h, setW]
      · exfalso; simp [readLockA, writeLockA, h, hq] at hg
  · intro hg
    cases h : s.table k with
    | none => simp [writeLockB, h, setW]
    | some q =>
      by_cases hq : q = []
      · subst hq; simp [writeLockB, h, setW]
      · exfalso; simp [writeLockB, h, hq] at hg
  · intro hg
    cases h : s.table k with
    | none => simp [readLockB, h, setW]
    | some q =>
      by_cases hq : q = []
      · subst hq; simp [readLockB, h, setW]
      · by_cases hany : (q ++ [(⟨LockMode.SHARED, t⟩ : LockRequest)]).any isExclusive
        · exfalso; simp [readLockB, h, hq, hany] at hg
        · simp [readLockB, h, hq, hany, setW]

/-- Witness for C10 at a concrete state: T2 waits on key a with counter 1,
then WriteLock(T2, b) on the fresh key b grants and overwrites T2's counter
to 0. -/
theorem C10_grant_sets_zero_witness :
    (writeLockA (writeLockA lmInit 1 0).1 2 0).1.waits 2 = some 1 ∧
    cOverA.waits 2 = some 0 := by
  refine ⟨by decide,
    (C10_grant_sets_zero (writeLockA (writeLockA lmInit 1 0).1 2 0).1 2 1).1
      (by decide)⟩

end LockMgr
